import Mathlib

/-!
Verification of the generic entity-management layer of the repository
(shared Result/pagination utilities, in-memory repository, validation
combination, event notification, DTO projection), shallowly embedded
from the TypeScript sources under src/packages.
-/

namespace Spec2Proof

/-! ### Result type
Embedding of `Result<T, E = string>` from shared/types.ts and its
constructors from shared/utils.ts.  The optional TS fields `value?` and
`error?` become `Option` fields; a field is "present" exactly when it is
`some`. -/

structure Result (α : Type) (ε : Type) where
  ok : Bool
  value : Option α
  error : Option ε
deriving Repr, DecidableEq

/-- createSuccess from shared/utils.ts: `{ ok: true, value }` (no error field). -/
def createSuccess {α ε : Type} (v : α) : Result α ε :=
  { ok := true, value := some v, error := none }

/-- createError from shared/utils.ts: `{ ok: false, error }` (no value field). -/
def createError {α ε : Type} (e : ε) : Result α ε :=
  { ok := false, value := none, error := some e }

/-- The spec's Result validity invariant: `ok == true` iff the value field is
present and the error field absent, and `ok == false` iff the error field is
present and the value field absent. -/
def ResultInv {α ε : Type} (r : Result α ε) : Prop :=
  (r.ok = true ↔ (r.value.isSome = true ∧ r.error = none)) ∧
  (r.ok = false ↔ (r.error.isSome = true ∧ r.value = none))

/-! ### Entity model
`SharedEntity` from shared/types.ts is `{ id, createdAt, updatedAt }`; a
generic `T extends SharedEntity` carries further fields, modelled by a
`data` payload.  Timestamps (`Date`) are modelled as naturals; the current
time (`new Date()`) is passed explicitly. -/

structure Ent (α : Type) where
  id : String
  createdAt : Nat
  updatedAt : Nat
  data : α
deriving Repr, DecidableEq

/-- touchEntity from shared/utils.ts: copy with `updatedAt` set to the
current time, all other fields spread unchanged. -/
def touchEntity {α : Type} (e : Ent α) (now : Nat) : Ent α :=
  { e with updatedAt := now }

/-! ### Backing store
`InMemoryRepository` holds a `Map<string, T>`.  A JS `Map` is an
insertion-ordered association with unique keys: it is modelled as an
association list; `set` overwrites in place when the key exists and
appends otherwise, `delete` removes the (single) entry with the key. -/

abbrev Store (α : Type) : Type := List (String × Ent α)

/-- Map.prototype.get: the value at the key, if any. -/
def mapGet {α : Type} : Store α → String → Option (Ent α)
  | [], _ => none
  | (k, v) :: rest, key => if k = key then some v else mapGet rest key

/-- Map.prototype.has. -/
def mapHas {α : Type} (s : Store α) (key : String) : Bool :=
  (mapGet s key).isSome

/-- Map.prototype.set: overwrite in place when the key is present, else append. -/
def mapSet {α : Type} : Store α → String → Ent α → Store α
  | [], key, v => [(key, v)]
  | (k, w) :: rest, key, v =>
      if k = key then (key, v) :: rest else (k, w) :: mapSet rest key v

/-- Map.prototype.delete: remove the entry with the key (a Map has at most one). -/
def mapDelete {α : Type} : Store α → String → Store α
  | [], _ => []
  | (k, w) :: rest, key => if k = key then rest else (k, w) :: mapDelete rest key

/-- Array.from(store.values()). -/
def mapValues {α : Type} (s : Store α) : List (Ent α) :=
  s.map Prod.snd

/-- A JS Map never holds two entries with the same key. -/
def StoreKeysNodup {α : Type} (s : Store α) : Prop :=
  (s.map Prod.fst).Nodup

instance {α : Type} (s : Store α) : Decidable (StoreKeysNodup s) :=
  inferInstanceAs (Decidable (s.map Prod.fst).Nodup)

/-! ### Pagination (shared/utils.ts `paginate`) -/

structure PaginationParams where
  page : Nat
  pageSize : Nat
deriving Repr, DecidableEq

structure PaginatedResponse (α : Type) where
  items : List α
  total : Nat
  page : Nat
  pageSize : Nat
  totalPages : Nat
deriving Repr, DecidableEq

/-- Math.ceil(total / pageSize) for naturals with pageSize ≥ 1 (and 0 when
total = 0, matching the JS value there). -/
def ceilDiv (total pageSize : Nat) : Nat :=
  (total + pageSize - 1) / pageSize

/-- paginate from shared/utils.ts: total = items.length,
totalPages = ceil(total / pageSize), start = (page-1)*pageSize,
end = start + pageSize, items = items.slice(start, end).  For 0 ≤ start,
`slice(start, end)` is drop start then take (end - start) = pageSize. -/
def paginate {α : Type} (items : List α) (params : PaginationParams) :
    PaginatedResponse α :=
  let total := items.length
  let totalPages := ceilDiv total params.pageSize
  let start := (params.page - 1) * params.pageSize
  { items := (items.drop start).take params.pageSize
    total := total
    page := params.page
    pageSize := params.pageSize
    totalPages := totalPages }

/-! ### In-memory repository (backend/repository.ts `InMemoryRepository`)
Each mutating operation returns the new store together with the `Result`
the method returns.  `Result<void>` is modelled as `Result Unit String`. -/

namespace InMemoryRepository

/-- findById: error "Entity with id ... not found" when absent, else success
with the stored value. -/
def findById {α : Type} (s : Store α) (id : String) : Result (Ent α) String :=
  match mapGet s id with
  | none => createError ("Entity with id " ++ id ++ " not found")
  | some entity => createSuccess entity

/-- findAll: success with Array.from(store.values()). -/
def findAll {α : Type} (s : Store α) : Result (List (Ent α)) String :=
  createSuccess (mapValues s)

/-- findPaginated: success with paginate over the values snapshot. -/
def findPaginated {α : Type} (s : Store α) (params : PaginationParams) :
    Result (PaginatedResponse (Ent α)) String :=
  createSuccess (paginate (mapValues s) params)

/-- save: touch the entity, store it under its own id, return it. -/
def save {α : Type} (s : Store α) (entity : Ent α) (now : Nat) :
    Store α × Result (Ent α) String :=
  let updated := touchEntity entity now
  (mapSet s updated.id updated, createSuccess updated)

/-- delete: not-found error leaving the store unchanged when the id is
absent, else remove the entry and succeed with undefined (Unit). -/
def delete {α : Type} (s : Store α) (id : String) : Store α × Result Unit String :=
  if mapHas s id = false then
    (s, createError ("Entity with id " ++ id ++ " not found"))
  else
    (mapDelete s id, createSuccess ())

end InMemoryRepository

/-! ### Key-consistency invariant (claim C9) -/

/-- Every entry of the backing map stores an entity whose id equals its key. -/
def StoreInv {α : Type} (s : Store α) : Prop :=
  ∀ p ∈ s, (Prod.snd p).id = Prod.fst p

instance {α : Type} (s : Store α) : Decidable (StoreInv s) :=
  inferInstanceAs (Decidable (∀ p ∈ s, (Prod.snd p).id = Prod.fst p))

/-! ### Validation (shared/validation.ts) -/

structure ValidationError where
  field : String
  message : String
  code : String
deriving Repr, DecidableEq

/-- ValidationResult from shared/validation.ts: `{ ok, errors? }` with the
optional errors field modelled as an Option. -/
structure ValidationResult where
  ok : Bool
  errors : Option (List ValidationError)
deriving Repr, DecidableEq

/-- validationSuccess: `{ ok: true }` (no errors field). -/
def validationSuccess : ValidationResult :=
  { ok := true, errors := none }

/-- validationError: `{ ok: false, errors }`. -/
def validationError (errors : List ValidationError) : ValidationResult :=
  { ok := false, errors := some errors }

/-- The accumulation loop of combineValidations: for each result, when
`!result.ok && result.errors` (errors is present — a JS array is truthy even
when empty, undefined is falsy), push that result's errors. -/
def combineErrors : List ValidationResult → List ValidationError
  | [] => []
  | r :: rest =>
      match r.ok, r.errors with
      | false, some es => es ++ combineErrors rest
      | _, _ => combineErrors rest

/-- combineValidations from shared/validation.ts: accumulate all errors,
then return an error result when any were collected, else success. -/
def combineValidations (results : List ValidationResult) : ValidationResult :=
  let allErrors := combineErrors results
  if allErrors.length > 0 then validationError allErrors else validationSuccess

/-- Well-formedness of a ValidationResult, the invariant the spec states for
the type and every constructor in shared/validation.ts maintains: a success
carries no errors field, a failure carries a nonempty error list. -/
def ValidationResultInv (r : ValidationResult) : Prop :=
  (r.ok = true → r.errors = none) ∧
  (r.ok = false → r.errors ≠ none ∧ r.errors ≠ some [])

instance (r : ValidationResult) : Decidable (ValidationResultInv r) :=
  inferInstanceAs (Decidable ((r.ok = true → r.errors = none) ∧
    (r.ok = false → r.errors ≠ none ∧ r.errors ≠ some [])))

/-- The error list a ValidationResult contributes (empty for a success). -/
def errorListOf (r : ValidationResult) : List ValidationError :=
  r.errors.getD []

/-! ### Domain events and the emitter loop (backend/repository.ts)
UserService.emitEvent and ItemService.emitEvent are the same code, generic
in the payload: build the event and run
`this.eventEmitters.forEach(emit => emit(event))`.  A handler is modelled
by its observable interaction with the loop: an identity (JS function
reference, tagged by a Nat) and whether it raises on a given event.  The
loop yields the trace of invocations (handler id, event passed) and
whether an exception escaped the forEach. -/

inductive EventType
  | created
  | updated
  | deleted
deriving Repr, DecidableEq

inductive EventSource
  | backend
  | frontend
deriving Repr, DecidableEq

structure SharedEvent (γ : Type) where
  type : EventType
  payload : γ
  timestamp : Nat
  source : EventSource
deriving Repr, DecidableEq

structure Subscriber (γ : Type) where
  sid : Nat
  raises : SharedEvent γ → Bool

/-- Array.prototype.forEach with a possibly-throwing callback: handlers are
called in list order with the event; an exception propagates out of the
forEach, so no later handler runs. -/
def forEachEmit {γ : Type} (ev : SharedEvent γ) :
    List (Subscriber γ) → List (Nat × SharedEvent γ) × Bool
  | [] => ([], false)
  | h :: rest =>
      if h.raises ev then ([(h.sid, ev)], true)
      else
        let r := forEachEmit ev rest
        ((h.sid, ev) :: r.1, r.2)

/-- emitEvent from UserService / ItemService: build the event
`{ type, payload, timestamp: new Date(), source: 'backend' }` and invoke
every current subscriber via forEach. -/
def emitEvent {γ : Type} (type : EventType) (payload : γ) (now : Nat)
    (emitters : List (Subscriber γ)) : List (Nat × SharedEvent γ) × Bool :=
  forEachEmit { type := type, payload := payload, timestamp := now,
                source := EventSource.backend } emitters

/-- onEvent from UserService / ItemService: `this.eventEmitters.push(emitter)`.
The TS method's return type is void — it returns no unsubscribe value. -/
def onEvent {γ : Type} (emitters : List (Subscriber γ)) (h : Subscriber γ) :
    List (Subscriber γ) :=
  emitters ++ [h]

/-- The operations of a backend service that touch its eventEmitters list:
onEvent pushes a handler, and every other public method at most reads the
list inside emitEvent.  No method ever removes an element. -/
inductive ServiceOp (γ : Type)
  | subscribe (h : Subscriber γ)
  | publish (type : EventType) (payload : γ) (now : Nat)

/-- Effect of one service operation on the eventEmitters list. -/
def applyOp {γ : Type} (emitters : List (Subscriber γ)) :
    ServiceOp γ → List (Subscriber γ)
  | ServiceOp.subscribe h => onEvent emitters h
  | ServiceOp.publish _ _ _ => emitters

/-- Effect of a sequence of service operations on the eventEmitters list. -/
def applyOps {γ : Type} (emitters : List (Subscriber γ)) :
    List (ServiceOp γ) → List (Subscriber γ)
  | [] => emitters
  | op :: rest => applyOps (applyOp emitters op) rest

/-! ### NotificationManager (frontend/state.ts)
Listeners are JS function references, compared by reference identity in the
unsubscribe closure; a reference is modelled by a Nat tag. -/

/-- NotificationManager.subscribe: `this.listeners.push(listener)`. -/
def nmSubscribe (listeners : List Nat) (l : Nat) : List Nat :=
  listeners ++ [l]

/-- The closure subscribe returns:
`this.listeners = this.listeners.filter(x => x !== listener)`. -/
def nmUnsubscribe (listeners : List Nat) (l : Nat) : List Nat :=
  listeners.filter (fun x => x != l)

/-- notifyListeners: `this.listeners.forEach(listener => listener(this.notifications))`
— each listener is invoked, in list order, with the current notifications. -/
def nmNotifyTrace {ν : Type} (listeners : List Nat) (notifications : ν) :
    List (Nat × ν) :=
  listeners.map (fun l => (l, notifications))

/-! ### Backend user model and DTO projection (backend/models.ts) -/

inductive Role
  | admin
  | user
  | guest
deriving Repr, DecidableEq

/-- BackendUser from backend/models.ts: UserDto fields plus the server-side
passwordHash, lastLoginAt?, loginCount and isVerified fields. -/
structure BackendUser where
  id : String
  createdAt : Nat
  updatedAt : Nat
  email : String
  name : String
  role : Role
  passwordHash : String
  lastLoginAt : Option Nat
  loginCount : Nat
  isVerified : Bool
deriving Repr, DecidableEq

/-- UserDto from shared/types.ts: SharedEntity fields plus email, name, role. -/
structure UserDto where
  id : String
  createdAt : Nat
  updatedAt : Nat
  email : String
  name : String
  role : Role
deriving Repr, DecidableEq

/-- toUserDto from backend/models.ts: builds the DTO from exactly the six
listed fields of the backend user. -/
def toUserDto (u : BackendUser) : UserDto :=
  { id := u.id
    createdAt := u.createdAt
    updatedAt := u.updatedAt
    email := u.email
    name := u.name
    role := u.role }

/-! ### Concrete values used to instantiate the theorems -/

/-- A subscriber whose callback throws on every event. -/
def raisingSub : Subscriber Unit :=
  { sid := 1, raises := fun _ => true }

/-- A subscriber whose callback never throws. -/
def quietSub : Subscriber Unit :=
  { sid := 2, raises := fun _ => false }

/-- A handler registered with a backend service via onEvent. -/
def handler0 : Subscriber Unit :=
  { sid := 0, raises := fun _ => false }

/-- A concrete entity with no extra fields. -/
def entA : Ent Unit :=
  { id := "a", createdAt := 1, updatedAt := 1, data := () }

def vErr1 : ValidationError :=
  { field := "email", message := "Email is required", code := "REQUIRED" }

def vErr2 : ValidationError :=
  { field := "name", message := "name must be at least 2 characters",
    code := "MIN_LENGTH" }

def backendUserA : BackendUser :=
  { id := "u1", createdAt := 1, updatedAt := 2, email := "a@b.com",
    name := "Ann", role := Role.user, passwordHash := "hash1",
    lastLoginAt := none, loginCount := 0, isVerified := false }

/-- Same DTO-visible fields as backendUserA, different server-side fields. -/
def backendUserB : BackendUser :=
  { backendUserA with
    passwordHash := "hash2"
    lastLoginAt := some 9
    loginCount := 5
    isVerified := true }

/-! ### Helper lemmas -/

theorem mapGet_mapSet_self {α : Type} (s : Store α) (k : String) (v : Ent α) :
    mapGet (mapSet s k v) k = some v := by
  induction s with
  | nil => simp [mapSet, mapGet]
  | cons p rest ih =>
      obtain ⟨k', w⟩ := p
      by_cases hk : k' = k
      · simp [mapSet, hk, mapGet]
      · simp [mapSet, hk, mapGet, ih]

theorem le_ceilDiv_mul (n k : Nat) (hk : 0 < k) : n ≤ ceilDiv n k * k := by
  have hdm := Nat.div_add_mod (n + k - 1) k
  have hmod : (n + k - 1) % k < k := Nat.mod_lt _ hk
  show n ≤ (n + k - 1) / k * k
  rw [Nat.mul_comm]
  generalize k * ((n + k - 1) / k) = m at hdm ⊢
  omega

theorem flatten_page_slices {α : Type} (k : Nat) (l : List α) :
    ∀ n, ((List.range n).map (fun i => (l.drop (i * k)).take k)).flatten
            = l.take (n * k)
  | 0 => by simp
  | n + 1 => by
      rw [List.range_succ, List.map_append, List.flatten_append,
        flatten_page_slices k l n]
      simp [Nat.succ_mul, List.take_add]

/-- C2: Every Result built by createSuccess or createError, and every Result
returned by the in-memory repository operations findById, findAll,
findPaginated, save and delete, satisfies the validity invariant: ok = true
iff the value field is present and the error field absent, and ok = false
iff the error field is present and the value field absent. -/
theorem result_invariant_all_ops {α : Type} (v : α) (e : String)
    (s : Store α) (id : String) (params : PaginationParams)
    (ent : Ent α) (now : Nat) :
    ResultInv (createSuccess (ε := String) v) ∧
    ResultInv (createError (α := α) e) ∧
    ResultInv (InMemoryRepository.findById s id) ∧
    ResultInv (InMemoryRepository.findAll s) ∧
    ResultInv (InMemoryRepository.findPaginated s params) ∧
    ResultInv (InMemoryRepository.save s ent now).2 ∧
    ResultInv (InMemoryRepository.delete s id).2 := by
  refine ⟨?_, ?_, ?_, ?_, ?_, ?_, ?_⟩
  · simp [ResultInv, createSuccess]
  · simp [ResultInv, createError]
  · unfold InMemoryRepository.findById
    cases mapGet s id <;> simp [ResultInv, createSuccess, createError]
  · simp [ResultInv, InMemoryRepository.findAll, createSuccess]
  · simp [ResultInv, InMemoryRepository.findPaginated, createSuccess]
  · simp [ResultInv, InMemoryRepository.save, createSuccess]
  · unfold InMemoryRepository.delete
    by_cases h : mapHas s id = false <;>
      simp [h, ResultInv, createSuccess, createError]

/-- C3: For page ≥ 1 and pageSize ≥ 1, paginate returns total = items.length,
totalPages = the ceiling of total / pageSize (0 when total = 0, and
characterized by total ≤ totalPages * pageSize < total + pageSize), and the
items slice items[(page-1)*pageSize : (page-1)*pageSize + pageSize], which is
empty whenever the start index reaches total; the function is total, so no
out-of-range failure can occur. -/
theorem paginate_spec {α : Type} (items : List α) (page pageSize : Nat)
    (_hp : 1 ≤ page) (hk : 1 ≤ pageSize) :
    (paginate items ⟨page, pageSize⟩).total = items.length ∧
    (paginate items ⟨page, pageSize⟩).totalPages = ceilDiv items.length pageSize ∧
    items.length ≤ (paginate items ⟨page, pageSize⟩).totalPages * pageSize ∧
    (paginate items ⟨page, pageSize⟩).totalPages * pageSize
        < items.length + pageSize ∧
    (items.length = 0 → (paginate items ⟨page, pageSize⟩).totalPages = 0) ∧
    (paginate items ⟨page, pageSize⟩).items
        = (items.drop ((page - 1) * pageSize)).take pageSize ∧
    (items.length ≤ (page - 1) * pageSize →
        (paginate items ⟨page, pageSize⟩).items = []) := by
  have hk0 : 0 < pageSize := hk
  refine ⟨rfl, rfl, le_ceilDiv_mul items.length pageSize hk0, ?_, ?_, rfl, ?_⟩
  · show (items.length + pageSize - 1) / pageSize * pageSize
        < items.length + pageSize
    have hdm := Nat.div_add_mod (items.length + pageSize - 1) pageSize
    have hmod : (items.length + pageSize - 1) % pageSize < pageSize :=
      Nat.mod_lt _ hk0
    rw [Nat.mul_comm]
    generalize pageSize * ((items.length + pageSize - 1) / pageSize) = m
      at hdm ⊢
    omega
  · intro h0
    show (items.length + pageSize - 1) / pageSize = 0
    rw [h0]
    exact Nat.div_eq_of_lt (by omega)
  · intro hstart
    show (items.drop ((page - 1) * pageSize)).take pageSize = []
    rw [List.drop_eq_nil_of_le hstart]
    exact List.take_nil

/-- C4: For every list and pageSize ≥ 1, the page slices over pages
1..totalPages concatenate to exactly the input list (no loss or
duplication), their lengths sum to total, and any page beyond totalPages
yields an empty items list while the call still succeeds. -/
theorem paginate_partition {α : Type} (items : List α) (pageSize : Nat)
    (hk : 1 ≤ pageSize) :
    (((List.range (paginate items ⟨1, pageSize⟩).totalPages).map
        (fun i => (paginate items ⟨i + 1, pageSize⟩).items)).flatten
      = items) ∧
    (((List.range (paginate items ⟨1, pageSize⟩).totalPages).map
        (fun i => (paginate items ⟨i + 1, pageSize⟩).items.length)).sum
      = items.length) ∧
    (∀ page, (paginate items ⟨1, pageSize⟩).totalPages < page →
        (paginate items ⟨page, pageSize⟩).items = []) := by
  have hk0 : 0 < pageSize := hk
  have htp : (paginate items ⟨1, pageSize⟩).totalPages
      = ceilDiv items.length pageSize := rfl
  have hflat : ((List.range (ceilDiv items.length pageSize)).map
      (fun i => (paginate items ⟨i + 1, pageSize⟩).items)).flatten = items := by
    have hmap : (fun i => (paginate items ⟨i + 1, pageSize⟩).items)
        = (fun i => (items.drop (i * pageSize)).take pageSize) := by
      funext i
      show (items.drop ((i + 1 - 1) * pageSize)).take pageSize = _
      simp
    rw [hmap, flatten_page_slices]
    exact List.take_of_length_le (le_ceilDiv_mul items.length pageSize hk0)
  refine ⟨by rw [htp]; exact hflat, ?_, ?_⟩
  · have hlen := congrArg List.length hflat
    rw [List.length_flatten, List.map_map] at hlen
    rw [htp]
    exact hlen
  · intro page hpage
    rw [htp] at hpage
    have hstart : items.length ≤ (page - 1) * pageSize := by
      have h1 : ceilDiv items.length pageSize ≤ page - 1 := by omega
      calc items.length ≤ ceilDiv items.length pageSize * pageSize :=
            le_ceilDiv_mul items.length pageSize hk0
        _ ≤ (page - 1) * pageSize := Nat.mul_le_mul_right pageSize h1
    show (items.drop ((page - 1) * pageSize)).take pageSize = []
    rw [List.drop_eq_nil_of_le hstart]
    exact List.take_nil

theorem mapGet_mapDelete_ne {α : Type} (s : Store α) (id k : String)
    (hne : k ≠ id) : mapGet (mapDelete s id) k = mapGet s k := by
  induction s with
  | nil => rfl
  | cons p rest ih =>
      obtain ⟨k', w⟩ := p
      by_cases hk : k' = id
      · subst hk
        have hne' : k' ≠ k := fun h => hne h.symm
        simp [mapDelete, mapGet, hne']
      · by_cases hk2 : k' = k
        · subst hk2
          simp [mapDelete, hk, mapGet]
        · simp [mapDelete, hk, mapGet, hk2, ih]

theorem mapGet_eq_none_of_not_mem_keys {α : Type} (s : Store α) (id : String)
    (h : id ∉ s.map Prod.fst) : mapGet s id = none := by
  induction s with
  | nil => rfl
  | cons p rest ih =>
      obtain ⟨k', w⟩ := p
      have hk : k' ≠ id := by
        intro he
        exact h (by simp [he])
      simp only [mapGet, if_neg hk]
      exact ih (fun hm => h (List.mem_cons_of_mem _ hm))

theorem mapGet_mapDelete_self {α : Type} (s : Store α) (id : String)
    (hnd : StoreKeysNodup s) : mapGet (mapDelete s id) id = none := by
  induction s with
  | nil => rfl
  | cons p rest ih =>
      obtain ⟨k', w⟩ := p
      have hnd' : StoreKeysNodup rest := (List.nodup_cons.mp hnd).2
      by_cases hk : k' = id
      · subst hk
        have hnotin : k' ∉ rest.map Prod.fst := (List.nodup_cons.mp hnd).1
        simp only [mapDelete, if_pos rfl]
        exact mapGet_eq_none_of_not_mem_keys rest k' hnotin
      · simp [mapDelete, hk, mapGet, ih hnd']

theorem mapDelete_length {α : Type} (s : Store α) (id : String)
    (h : mapHas s id = true) : (mapDelete s id).length + 1 = s.length := by
  induction s with
  | nil => simp [mapHas, mapGet] at h
  | cons p rest ih =>
      obtain ⟨k', w⟩ := p
      by_cases hk : k' = id
      · simp [mapDelete, hk]
      · have h' : mapHas rest id = true := by
          simpa [mapHas, mapGet, hk] using h
        simp [mapDelete, hk, ih h']

theorem mem_mapDelete {α : Type} (s : Store α) (id : String)
    (p : String × Ent α) (h : p ∈ mapDelete s id) : p ∈ s := by
  induction s with
  | nil => exact absurd h (by simp [mapDelete])
  | cons q rest ih =>
      obtain ⟨k', w⟩ := q
      by_cases hk : k' = id
      · simp only [mapDelete, if_pos hk] at h
        exact List.mem_cons_of_mem _ h
      · simp only [mapDelete, if_neg hk] at h
        rcases List.mem_cons.mp h with h1 | h1
        · exact h1 ▸ List.mem_cons_self _ _
        · exact List.mem_cons_of_mem _ (ih h1)

theorem StoreInv_mapSet {α : Type} (s : Store α) (k : String) (v : Ent α)
    (hinv : StoreInv s) (hv : v.id = k) : StoreInv (mapSet s k v) := by
  induction s with
  | nil =>
      intro p hp
      simp only [mapSet, List.mem_singleton] at hp
      subst hp
      exact hv
  | cons q rest ih =>
      obtain ⟨k', w⟩ := q
      by_cases hk : k' = k
      · simp only [mapSet, if_pos hk]
        intro p hp
        rcases List.mem_cons.mp hp with h1 | h1
        · subst h1
          exact hv
        · exact hinv p (List.mem_cons_of_mem _ h1)
      · simp only [mapSet, if_neg hk]
        intro p hp
        rcases List.mem_cons.mp hp with h1 | h1
        · subst h1
          exact hinv (k', w) (List.mem_cons_self _ _)
        · exact ih (fun q hq => hinv q (List.mem_cons_of_mem _ hq)) p h1

/-- C5: save always succeeds, returning and storing exactly the touched
entity: updatedAt becomes the current time while id, createdAt and all
other fields are unchanged; fetching the saved id afterwards yields that
touched entity, whose id and createdAt equal the saved value's and whose
updatedAt is at least the pre-save updatedAt under a non-decreasing clock. -/
theorem save_spec {α : Type} (s : Store α) (e : Ent α) (now : Nat)
    (hclock : e.updatedAt ≤ now) :
    (InMemoryRepository.save s e now).2 = createSuccess (touchEntity e now) ∧
    mapGet (InMemoryRepository.save s e now).1 e.id = some (touchEntity e now) ∧
    (touchEntity e now).id = e.id ∧
    (touchEntity e now).createdAt = e.createdAt ∧
    (touchEntity e now).data = e.data ∧
    (touchEntity e now).updatedAt = now ∧
    InMemoryRepository.findById (InMemoryRepository.save s e now).1 e.id
      = createSuccess (touchEntity e now) ∧
    e.updatedAt ≤ (touchEntity e now).updatedAt := by
  have hget : mapGet (InMemoryRepository.save s e now).1 e.id
      = some (touchEntity e now) := by
    show mapGet (mapSet s (touchEntity e now).id (touchEntity e now)) e.id = _
    exact mapGet_mapSet_self s e.id (touchEntity e now)
  refine ⟨rfl, hget, rfl, rfl, rfl, rfl, ?_, hclock⟩
  simp [InMemoryRepository.findById, hget]

/-- C6: deleting an absent id returns the not-found error and leaves the
store unchanged; deleting a present id succeeds, removes exactly that entry
(the store shrinks by one and every other key is untouched) so that a
subsequent findById of the id reports not found; and findById of a present
id succeeds with the stored value. -/
theorem delete_spec {α : Type} (s : Store α) (id : String)
    (hnd : StoreKeysNodup s) :
    (mapHas s id = false →
        InMemoryRepository.delete s id
          = (s, createError ("Entity with id " ++ id ++ " not found"))) ∧
    (mapHas s id = true →
        (InMemoryRepository.delete s id).1 = mapDelete s id ∧
        (InMemoryRepository.delete s id).2 = createSuccess () ∧
        InMemoryRepository.findById (InMemoryRepository.delete s id).1 id
          = createError ("Entity with id " ++ id ++ " not found") ∧
        (∀ k, k ≠ id →
            mapGet (InMemoryRepository.delete s id).1 k = mapGet s k) ∧
        (InMemoryRepository.delete s id).1.length + 1 = s.length) ∧
    (∀ ent, mapGet s id = some ent →
        InMemoryRepository.findById s id = createSuccess ent) := by
  refine ⟨?_, ?_, ?_⟩
  · intro h
    simp [InMemoryRepository.delete, h]
  · intro h
    have hne : ¬ mapHas s id = false := by simp [h]
    have h1 : (InMemoryRepository.delete s id).1 = mapDelete s id := by
      simp [InMemoryRepository.delete, hne]
    refine ⟨h1, by simp [InMemoryRepository.delete, hne], ?_, ?_, ?_⟩
    · rw [h1]
      simp [InMemoryRepository.findById, mapGet_mapDelete_self s id hnd]
    · intro k hk
      rw [h1]
      exact mapGet_mapDelete_ne s id k hk
    · rw [h1]
      exact mapDelete_length s id h
  · intro ent h
    simp [InMemoryRepository.findById, h]

/-- C9: the backing map maps every key to an entity whose id equals that
key: the empty store satisfies this, save preserves it (the touched entity
is stored under its own id), and delete preserves it (it only removes
entries); the read operations return no modified store at all. -/
theorem store_key_consistency {α : Type} (s : Store α) (e : Ent α)
    (now : Nat) (id : String) (hinv : StoreInv s) :
    StoreInv ([] : Store α) ∧
    StoreInv (InMemoryRepository.save s e now).1 ∧
    StoreInv (InMemoryRepository.delete s id).1 := by
  refine ⟨?_, ?_, ?_⟩
  · intro p hp
    exact absurd hp (List.not_mem_nil p)
  · exact StoreInv_mapSet s (touchEntity e now).id (touchEntity e now) hinv rfl
  · unfold InMemoryRepository.delete
    by_cases h : mapHas s id = false
    · simpa [h] using hinv
    · simp only [if_neg h]
      intro p hp
      exact hinv p (mem_mapDelete s id p hp)

theorem combineErrors_eq_flatten (results : List ValidationResult)
    (hwf : ∀ r ∈ results, ValidationResultInv r) :
    combineErrors results = (results.map errorListOf).flatten := by
  induction results with
  | nil => rfl
  | cons r rest ih =>
      have hr := hwf r (List.mem_cons_self _ _)
      have hrest : ∀ x ∈ rest, ValidationResultInv x :=
        fun x hx => hwf x (List.mem_cons_of_mem _ hx)
      cases hok : r.ok
      · cases herr : r.errors with
        | none => exact absurd herr ((hr.2 hok).1)
        | some es =>
            simp [combineErrors, hok, herr, errorListOf, ih hrest]
      · have hnone := hr.1 hok
        simp [combineErrors, hok, hnone, errorListOf, ih hrest]

theorem combineErrors_eq_nil_iff (results : List ValidationResult)
    (hwf : ∀ r ∈ results, ValidationResultInv r) :
    combineErrors results = [] ↔ ∀ r ∈ results, r.ok = true := by
  induction results with
  | nil => simp [combineErrors]
  | cons r rest ih =>
      have hr := hwf r (List.mem_cons_self _ _)
      have hrest : ∀ x ∈ rest, ValidationResultInv x :=
        fun x hx => hwf x (List.mem_cons_of_mem _ hx)
      cases hok : r.ok
      · cases herr : r.errors with
        | none => exact absurd herr ((hr.2 hok).1)
        | some es =>
            have hne : es ≠ [] := by
              intro h0
              exact (hr.2 hok).2 (by rw [herr, h0])
            constructor
            · intro h
              simp only [combineErrors, hok, herr] at h
              exact absurd (List.append_eq_nil.mp h).1 hne
            · intro hall
              exact absurd (hall r (List.mem_cons_self _ _)) (by simp [hok])
      · have hnone := hr.1 hok
        simp [combineErrors, hok, hnone, ih hrest]

/-- C7: given well-formed ValidationResult inputs (the invariant every
constructor in shared/validation.ts maintains: a success has no errors
field, a failure has a nonempty error list), combineValidations returns
success iff every input was success, and on any failure returns an error
result whose list is the concatenation of the inputs' error lists in input
order. -/
theorem combineValidations_spec (results : List ValidationResult)
    (hwf : ∀ r ∈ results, ValidationResultInv r) :
    (combineValidations results = validationSuccess ↔
        ∀ r ∈ results, r.ok = true) ∧
    ((∃ r ∈ results, r.ok = false) →
        combineValidations results
          = validationError ((results.map errorListOf).flatten)) := by
  have hflat := combineErrors_eq_flatten results hwf
  have hnil := combineErrors_eq_nil_iff results hwf
  constructor
  · by_cases h : combineErrors results = []
    · constructor
      · intro _
        exact hnil.mp h
      · intro _
        simp [combineValidations, h]
    · have hlen : 0 < (combineErrors results).length :=
        List.length_pos.mpr h
      constructor
      · intro hc
        simp only [combineValidations, if_pos hlen] at hc
        exact absurd (congrArg ValidationResult.ok hc)
          (by simp [validationError, validationSuccess])
      · intro hall
        exact absurd (hnil.mpr hall) h
  · rintro ⟨r, hrmem, hok⟩
    have h : combineErrors results ≠ [] := by
      intro h0
      exact absurd (hnil.mp h0 r hrmem) (by simp [hok])
    have hlen : 0 < (combineErrors results).length :=
      List.length_pos.mpr h
    simp only [combineValidations, if_pos hlen]
    rw [hflat]

theorem forEachEmit_no_raise {γ : Type} (ev : SharedEvent γ)
    (hs : List (Subscriber γ)) (h : ∀ g ∈ hs, g.raises ev = false) :
    forEachEmit ev hs = (hs.map (fun g => (g.sid, ev)), false) := by
  induction hs with
  | nil => rfl
  | cons g rest ih =>
      have hg := h g (List.mem_cons_self _ _)
      have hr := ih (fun x hx => h x (List.mem_cons_of_mem _ hx))
      simp [forEachEmit, hg, hr]

theorem forEachEmit_raise_prefix {γ : Type} (ev : SharedEvent γ)
    (pre post : List (Subscriber γ)) (h : Subscriber γ)
    (hpre : ∀ g ∈ pre, g.raises ev = false) (hraise : h.raises ev = true) :
    forEachEmit ev (pre ++ h :: post)
      = ((pre ++ [h]).map (fun g => (g.sid, ev)), true) := by
  induction pre with
  | nil => simp [forEachEmit, hraise]
  | cons g rest ih =>
      have hg := hpre g (List.mem_cons_self _ _)
      have hr := ih (fun x hx => hpre x (List.mem_cons_of_mem _ hx))
      simp [forEachEmit, hg, hr]

/-- C1 (amended): when no subscriber raises on the event, emitEvent invokes
every subscriber exactly once with the event, in subscription order, and no
error escapes; but when a subscriber raises, exactly the subscribers up to
and including the first raising one are invoked and the error propagates,
so the remaining subscribers are not invoked. -/
theorem emitEvent_delivery {γ : Type} (t : EventType) (p : γ) (now : Nat)
    (hs pre post : List (Subscriber γ)) (h : Subscriber γ) :
    ((∀ g ∈ hs,
        g.raises ⟨t, p, now, EventSource.backend⟩ = false) →
      (emitEvent t p now hs).1
          = hs.map (fun g =>
              (g.sid, (⟨t, p, now, EventSource.backend⟩ : SharedEvent γ))) ∧
        (emitEvent t p now hs).2 = false) ∧
    ((∀ g ∈ pre,
        g.raises ⟨t, p, now, EventSource.backend⟩ = false) →
      h.raises ⟨t, p, now, EventSource.backend⟩ = true →
      (emitEvent t p now (pre ++ h :: post)).1
          = (pre ++ [h]).map (fun g =>
              (g.sid, (⟨t, p, now, EventSource.backend⟩ : SharedEvent γ))) ∧
        (emitEvent t p now (pre ++ h :: post)).2 = true) := by
  constructor
  · intro hquiet
    have := forEachEmit_no_raise (⟨t, p, now, EventSource.backend⟩ :
      SharedEvent γ) hs hquiet
    exact ⟨by rw [emitEvent, this], by rw [emitEvent, this]⟩
  · intro hpre hraise
    have := forEachEmit_raise_prefix (⟨t, p, now, EventSource.backend⟩ :
      SharedEvent γ) pre post h hpre hraise
    exact ⟨by rw [emitEvent, this], by rw [emitEvent, this]⟩

/-- C1 counterexample: publishing to the subscriber list
[raisingSub, quietSub] invokes only the raising first subscriber — the
error escapes the forEach and the second subscriber is never invoked, so a
raising subscriber does prevent delivery to subsequent subscribers. -/
theorem emitEvent_raise_blocks_delivery :
    (emitEvent EventType.created () 0 [raisingSub, quietSub]).2 = true ∧
    (emitEvent EventType.created () 0 [raisingSub, quietSub]).1
      = [(1, ⟨EventType.created, (), 0, EventSource.backend⟩)] ∧
    2 ∉ ((emitEvent EventType.created () 0 [raisingSub, quietSub]).1.map
          Prod.fst) := by
  refine ⟨rfl, rfl, ?_⟩
  decide

theorem mem_applyOps {γ : Type} (es : List (Subscriber γ)) (g : Subscriber γ)
    (ops : List (ServiceOp γ)) (h : g ∈ es) : g ∈ applyOps es ops := by
  induction ops generalizing es with
  | nil => exact h
  | cons op rest ih =>
      cases op with
      | subscribe h2 =>
          exact ih (onEvent es h2) (List.mem_append_left _ h)
      | publish t p now => exact ih es h

/-- C8 counterexample: a handler registered on a backend service via
onEvent can never be removed — onEvent returns void, and no sequence of
service operations (further subscriptions or publishes, which are the only
operations touching the eventEmitters list) yields a state without the
handler, so no unsubscribe function for it exists. -/
theorem onEvent_no_unsubscribe :
    ¬ ∃ ops : List (ServiceOp Unit),
        handler0 ∉ applyOps (onEvent [] handler0) ops := by
  rintro ⟨ops, hnot⟩
  exact hnot (mem_applyOps (onEvent [] handler0) handler0 ops
    (by simp [onEvent]))

/-- C8 (amended): NotificationManager.subscribe returns an unsubscribe
closure; calling it removes the handler (by reference equality), restores
the previous listener list when the handler was fresh, and afterwards the
handler is not invoked by notifications while every remaining listener
still is.  The backend services' onEvent, by contrast, registers the
handler permanently: no service operation ever removes a subscribed
handler. -/
theorem subscribe_unsubscribe_spec {ν γ : Type} (listeners : List Nat)
    (l : Nat) (notifications : ν) (hfresh : l ∉ listeners) :
    nmUnsubscribe (nmSubscribe listeners l) l = listeners ∧
    (l, notifications) ∉
        nmNotifyTrace (nmUnsubscribe (nmSubscribe listeners l) l)
          notifications ∧
    (∀ l', l' ∈ listeners →
        (l', notifications) ∈
          nmNotifyTrace (nmUnsubscribe (nmSubscribe listeners l) l)
            notifications) ∧
    (∀ (es : List (Subscriber γ)) (g : Subscriber γ)
        (ops : List (ServiceOp γ)), g ∈ es → g ∈ applyOps es ops) := by
  have hunsub : nmUnsubscribe (nmSubscribe listeners l) l = listeners := by
    unfold nmUnsubscribe nmSubscribe
    rw [List.filter_append]
    have h1 : listeners.filter (fun x => x != l) = listeners :=
      List.filter_eq_self.mpr (fun x hx => by
        simp only [bne_iff_ne]
        intro he
        exact hfresh (he ▸ hx))
    have h2 : [l].filter (fun x => x != l) = [] := by simp
    rw [h1, h2, List.append_nil]
  refine ⟨hunsub, ?_, ?_, fun es g ops h => mem_applyOps es g ops h⟩
  · rw [hunsub]
    intro hmem
    obtain ⟨x, hx, hxeq⟩ := List.mem_map.mp hmem
    have : x = l := congrArg Prod.fst hxeq
    exact hfresh (this ▸ hx)
  · intro l' hl'
    rw [hunsub]
    exact List.mem_map_of_mem (fun x => (x, notifications)) hl'

/-- C10: toUserDto builds its output from exactly the fields id, createdAt,
updatedAt, email, name and role, so two backend users agreeing on those six
fields — and differing arbitrarily in passwordHash, lastLoginAt, loginCount
and isVerified — map to equal DTOs: the DTO leaks none of the server-side
fields. -/
theorem toUserDto_no_leak (u1 u2 : BackendUser)
    (hid : u1.id = u2.id) (hca : u1.createdAt = u2.createdAt)
    (hua : u1.updatedAt = u2.updatedAt) (hem : u1.email = u2.email)
    (hna : u1.name = u2.name) (hro : u1.role = u2.role) :
    toUserDto u1 = toUserDto u2 ∧
    toUserDto u1 = { id := u1.id, createdAt := u1.createdAt,
                     updatedAt := u1.updatedAt, email := u1.email,
                     name := u1.name, role := u1.role } := by
  constructor
  · simp [toUserDto, hid, hca, hua, hem, hna, hro]
  · rfl

/-- Witness for C3: the spec scenario — paginating the 25-element list
1..25 with page 3 and pageSize 10 yields elements 21-25, total 25 and
totalPages 3. -/
theorem paginate_spec_witness :
    (1 ≤ 3 ∧ 1 ≤ 10) ∧
    (paginate ((List.range 25).map (fun i => i + 1)) ⟨3, 10⟩).items
      = [21, 22, 23, 24, 25] ∧
    (paginate ((List.range 25).map (fun i => i + 1)) ⟨3, 10⟩).total = 25 ∧
    (paginate ((List.range 25).map (fun i => i + 1)) ⟨3, 10⟩).totalPages
      = 3 := by
  obtain ⟨h1, h2, _, _, _, h6, _⟩ :=
    paginate_spec ((List.range 25).map (fun i => i + 1)) 3 10
      (by decide) (by decide)
  refine ⟨⟨by decide, by decide⟩, ?_, ?_, ?_⟩
  · rw [h6]
    decide
  · rw [h1]
    decide
  · rw [h2]
    decide

/-- Witness for C4: for the list [10,20,30,40,50] with pageSize 2, the
page slices over pages 1..totalPages concatenate back to the list, and
page 4 (beyond totalPages = 3) yields an empty page. -/
theorem paginate_partition_witness :
    (1 ≤ 2) ∧
    ((List.range
        (paginate [10, 20, 30, 40, 50] ⟨1, 2⟩).totalPages).map
        (fun i => (paginate [10, 20, 30, 40, 50] ⟨i + 1, 2⟩).items)).flatten
      = [10, 20, 30, 40, 50] ∧
    (paginate [10, 20, 30, 40, 50] ⟨4, 2⟩).items = [] := by
  obtain ⟨h1, _, h3⟩ := paginate_partition [10, 20, 30, 40, 50] 2 (by decide)
  exact ⟨by decide, h1, h3 4 (by decide)⟩

/-- Witness for C5: saving the concrete entity entA at time 5 succeeds with
the touched entity, and fetching its id afterwards returns it. -/
theorem save_spec_witness :
    entA.updatedAt ≤ 5 ∧
    (InMemoryRepository.save [] entA 5).2
      = createSuccess (touchEntity entA 5) ∧
    InMemoryRepository.findById (InMemoryRepository.save [] entA 5).1 "a"
      = createSuccess (touchEntity entA 5) ∧
    (touchEntity entA 5).createdAt = entA.createdAt := by
  obtain ⟨h1, _, _, h4, _, _, h7, _⟩ := save_spec [] entA 5 (by decide)
  exact ⟨by decide, h1, h7, h4⟩

/-- Witness for C6: in the one-entry store holding entA under key a,
deleting a succeeds and the id is subsequently not found, while deleting
the absent key b fails with the not-found error. -/
theorem delete_spec_witness :
    StoreKeysNodup [("a", entA)] ∧
    (InMemoryRepository.delete [("a", entA)] "a").2 = createSuccess () ∧
    InMemoryRepository.findById
        (InMemoryRepository.delete [("a", entA)] "a").1 "a"
      = createError ("Entity with id " ++ "a" ++ " not found") ∧
    (InMemoryRepository.delete [("a", entA)] "b").2
      = createError ("Entity with id " ++ "b" ++ " not found") := by
  obtain ⟨_, hpres, _⟩ := delete_spec [("a", entA)] "a" (by decide)
  obtain ⟨habs, _, _⟩ := delete_spec [("a", entA)] "b" (by decide)
  obtain ⟨_, hsucc, hfind, _, _⟩ := hpres (by decide)
  exact ⟨by decide, hsucc, hfind, congrArg Prod.snd (habs (by decide))⟩

/-- Witness for C7: combining a success with two failures yields the
failure whose errors are the two error lists concatenated in input order,
and combining only successes yields success. -/
theorem combineValidations_spec_witness :
    (∀ r ∈ [validationSuccess, validationError [vErr1],
        validationError [vErr2]], ValidationResultInv r) ∧
    combineValidations
        [validationSuccess, validationError [vErr1], validationError [vErr2]]
      = validationError [vErr1, vErr2] ∧
    combineValidations [validationSuccess, validationSuccess]
      = validationSuccess := by
  obtain ⟨_, hfail⟩ := combineValidations_spec
    [validationSuccess, validationError [vErr1], validationError [vErr2]]
    (by decide)
  obtain ⟨hiff, _⟩ := combineValidations_spec
    [validationSuccess, validationSuccess] (by decide)
  refine ⟨by decide, ?_, hiff.mpr (by decide)⟩
  have h := hfail ⟨validationError [vErr1], by decide, rfl⟩
  rw [h]
  decide

/-- Witness for C9: the singleton store holding entA under its own id
satisfies the key-consistency invariant, and it is preserved by a save. -/
theorem store_key_consistency_witness :
    StoreInv [("a", entA)] ∧
    StoreInv (InMemoryRepository.save [("a", entA)] entA 7).1 ∧
    StoreInv (InMemoryRepository.delete [("a", entA)] "a").1 := by
  have h := store_key_consistency [("a", entA)] entA 7 "a" (by decide)
  exact ⟨by decide, h.2.1, h.2.2⟩

/-- Witness for C1 (amended): publishing to the single non-raising
subscriber invokes it once with the event and no error escapes; publishing
to [quietSub, raisingSub, quietSub] invokes exactly the first two
subscribers in order and the error escapes. -/
theorem emitEvent_delivery_witness :
    (emitEvent EventType.created () 3 [quietSub]).1
      = [(2, ⟨EventType.created, (), 3, EventSource.backend⟩)] ∧
    (emitEvent EventType.created () 3 [quietSub]).2 = false ∧
    (emitEvent EventType.created () 3 [quietSub, raisingSub, quietSub]).1
      = [(2, ⟨EventType.created, (), 3, EventSource.backend⟩),
         (1, ⟨EventType.created, (), 3, EventSource.backend⟩)] ∧
    (emitEvent EventType.created () 3 [quietSub, raisingSub, quietSub]).2
      = true := by
  have h := emitEvent_delivery EventType.created () 3
    [quietSub] [quietSub] [quietSub] raisingSub
  obtain ⟨hq, hqb⟩ := h.1 (by decide)
  obtain ⟨hr, hrb⟩ := h.2 (by decide) (by decide)
  exact ⟨hq.trans (by decide), hqb, hr.trans (by decide), hrb⟩

/-- Witness for C8 (amended): subscribing listener 7 to the listener list
[3, 4] and then calling the returned unsubscribe restores [3, 4]; listener
7 is not invoked by a subsequent notification while listener 3 still is. -/
theorem subscribe_unsubscribe_spec_witness :
    (7 ∉ [3, 4]) ∧
    nmUnsubscribe (nmSubscribe [3, 4] 7) 7 = [3, 4] ∧
    (7, "msgs") ∉ nmNotifyTrace (nmUnsubscribe (nmSubscribe [3, 4] 7) 7)
        "msgs" ∧
    (3, "msgs") ∈ nmNotifyTrace (nmUnsubscribe (nmSubscribe [3, 4] 7) 7)
        "msgs" := by
  have h := subscribe_unsubscribe_spec (γ := Unit) [3, 4] 7 "msgs"
    (by decide)
  exact ⟨by decide, h.1, h.2.1, h.2.2.1 3 (by decide)⟩

/-- Witness for C10: backendUserA and backendUserB differ in passwordHash,
lastLoginAt, loginCount and isVerified yet map to the same DTO. -/
theorem toUserDto_no_leak_witness :
    toUserDto backendUserA = toUserDto backendUserB ∧
    backendUserA.passwordHash ≠ backendUserB.passwordHash ∧
    backendUserA.isVerified ≠ backendUserB.isVerified := by
  have h := toUserDto_no_leak backendUserA backendUserB
    rfl rfl rfl rfl rfl rfl
  exact ⟨h.1, by decide, by decide⟩

end Spec2Proof
